import Mathlib

/-!
Shallow embedding of the `basic_blockchain` repository (src/Account.py and
src/Blockchain.py) and proofs about its specification claims.

Modelling conventions:
* Python dicts keyed by account id become association lists
  (`List (String × _)`) with insertion-order semantics: lookup returns the
  first binding, update replaces in place, a fresh key is appended.
* Balances and transferred values are integers (`Int`); Python's numbers are
  used as exact integers throughout the repository's own examples.
* The RSA-PSS signing/verification primitives live in the external
  `cryptography` library, outside the repository; they are abstracted as
  function parameters (`sign`, `verify`).  `Blockchain.__validate_transaction`
  catches only `InvalidSignature`, which the abstraction renders as
  `verify … = false`; an unknown sender makes `self._accounts.get(...)` return
  `None` and the following attribute access raise `AttributeError`, modelled
  with `Except PyErr`.
-/

namespace BasicBlockchain

/-- Lookup in a Python-dict-as-association-list: first binding wins. -/
def alFind {α : Type} (d : List (String × α)) (k : String) : Option α :=
  match d with
  | [] => none
  | p :: rest => if p.1 = k then some p.2 else alFind rest k

/-- `d.get(k, dflt)` of a Python dict. -/
def alGetD {α : Type} (d : List (String × α)) (k : String) (dflt : α) : α :=
  (alFind d k).getD dflt

/-- `d[k] = v` of a Python dict: replace the binding in place if the key is
present, append it otherwise. -/
def alSet {α : Type} (d : List (String × α)) (k : String) (v : α) :
    List (String × α) :=
  match d with
  | [] => [(k, v)]
  | p :: rest => if p.1 = k then (k, v) :: rest else p :: alSet rest k v

/-- The keys of a dict, in insertion order. -/
def alKeys {α : Type} (d : List (String × α)) : List String :=
  d.map Prod.fst

/-- Transaction message built by `Account.create_transaction`
(src/Account.py line 71): the exact field set covered by the signature. -/
structure Msg where
  sender : String
  receiver : String
  value : Int
  txMetadata : String
  nonce : Nat
  deriving DecidableEq

/-- A signed transaction, `{'message': …, 'signature': …}`
(src/Account.py line 98).  The base64 signature text is abstracted as a
number. -/
structure Transaction where
  message : Msg
  signature : Nat
  deriving DecidableEq

/-- State of `Account.__init__` (src/Account.py lines 12-19): id, mutable
balance, frozen initial balance, nonce, and the exported public-key material
(abstracted as a number). -/
structure Account where
  id : String
  balance : Int
  initialBalance : Int
  nonce : Nat
  publicKey : Nat
  deriving DecidableEq

/-- `Account.__init__`: balance and initial balance both start at the given
amount (Python default 100), nonce starts at 0.  Key generation is abstracted
by taking the public-key material as a parameter. -/
def Account.init (senderId : String) (publicKey : Nat) (balance : Int) :
    Account :=
  { id := senderId, balance := balance, initialBalance := balance,
    nonce := 0, publicKey := publicKey }

/-- The ledger's account registry `self._accounts`. -/
abbrev Accounts : Type := List (String × Account)

/-- A block as far as settlement and balance replay see it
(`Block.py` itself is not part of src/; index and transaction list are the
fields those passes read).  Proof-of-work fields are modelled separately in
`BlockPoW`. -/
structure Block where
  index : Nat
  transactions : List Transaction
  deriving DecidableEq

/-- The mutable state of a `Blockchain` instance that settlement touches:
`self._chain`, `self._pending_transactions`, `self._accounts`. -/
structure ChainState where
  chain : List Block
  pendingTransactions : List Transaction
  accounts : Accounts


/-- One admission/settlement guard step of `Blockchain.__process_transactions`
(src/Blockchain.py lines 86-106): sender registered, receiver registered,
`sender.balance < value` rejects, and after recording the sender's running
delta, `sender.balance < transaction_dict[sender]` rejects (note: the source
compares against the signed delta itself, not its magnitude). -/
def stepOkB (accounts : Accounts) (tdict : List (String × Int)) (m : Msg) :
    Bool :=
  match alFind accounts m.sender with
  | none => false
  | some sa =>
      (alFind accounts m.receiver).isSome &&
      !(sa.balance < m.value) &&
      !(sa.balance < alGetD tdict m.sender 0 - m.value)

/-- The update both settlement loops apply to `transaction_dict` when a
transaction passes every guard (src/Blockchain.py lines 104, 107): debit the
sender's running delta, then credit the receiver's. -/
def stepNext (tdict : List (String × Int)) (m : Msg) :
    List (String × Int) :=
  let d1 := alSet tdict m.sender (alGetD tdict m.sender 0 - m.value)
  alSet d1 m.receiver (alGetD d1 m.receiver 0 + m.value)

/-- The scanning loop of `Blockchain.__process_transactions`
(src/Blockchain.py lines 86-107): fold the pending messages into a net-delta
dict, returning `none` the moment a guard fails. -/
def buildDeltas (accounts : Accounts) :
    List Msg → List (String × Int) → Option (List (String × Int))
  | [], tdict => some tdict
  | m :: rest, tdict =>
    match alFind accounts m.sender with
    | none => none
    | some sa =>
        if (alFind accounts m.receiver).isNone then none
        else if sa.balance < m.value then none
        else
          let newDelta := alGetD tdict m.sender 0 - m.value
          let d1 := alSet tdict m.sender newDelta
          if sa.balance < newDelta then none
          else buildDeltas accounts rest
            (alSet d1 m.receiver (alGetD d1 m.receiver 0 + m.value))

/-- `Account.increase_balance` applied through the registry, as the commit
loops do (`self._accounts.get(account_id).increase_balance(value)`,
src/Blockchain.py lines 116-118 and 178-180).  Every committed key was
membership-checked beforehand, so the `none` branch is unreachable in the
source (Python would raise there). -/
def increaseBalanceA (accounts : Accounts) (k : String) (v : Int) : Accounts :=
  match alFind accounts k with
  | some a => alSet accounts k { a with balance := a.balance + v }
  | none => accounts

/-- The commit loop shared by both settlement paths: add every accumulated
net delta to the corresponding registered account's balance. -/
def commitDeltas (accounts : Accounts) (tdict : List (String × Int)) :
    Accounts :=
  tdict.foldl (fun accs kv => increaseBalanceA accs kv.1 kv.2) accounts

/-- `Blockchain.__process_transactions` (src/Blockchain.py lines 72-119):
all-or-nothing settlement.  `none` models the `False` return (nothing
committed); `some accounts2` models the `True` return after committing every
accumulated delta. -/
def processTransactions (accounts : Accounts) (txs : List Transaction) :
    Option Accounts :=
  match buildDeltas accounts (txs.map Transaction.message) [] with
  | none => none
  | some d => some (commitDeltas accounts d)

/-- The scanning loop of `Blockchain.__process_valid_transactions`
(src/Blockchain.py lines 140-168).  Faithful detail: when the running-delta
guard at line 162 rejects a transaction, the sender's delta recorded at line
161 is NOT undone — the rejected debit stays in `transaction_dict`. -/
def buildValidDeltas (accounts : Accounts) :
    List Transaction → List Transaction → List (String × Int) →
      List Transaction × List (String × Int)
  | [], valid, tdict => (valid, tdict)
  | t :: rest, valid, tdict =>
    let m := t.message
    match alFind accounts m.sender with
    | none => buildValidDeltas accounts rest valid tdict
    | some sa =>
        if (alFind accounts m.receiver).isNone then
          buildValidDeltas accounts rest valid tdict
        else if sa.balance < m.value then
          buildValidDeltas accounts rest valid tdict
        else
          let newDelta := alGetD tdict m.sender 0 - m.value
          let d1 := alSet tdict m.sender newDelta
          if sa.balance < newDelta then
            buildValidDeltas accounts rest valid d1
          else
            buildValidDeltas accounts rest (valid ++ [t])
              (alSet d1 m.receiver (alGetD d1 m.receiver 0 + m.value))

/-- `Blockchain.__process_valid_transactions` (src/Blockchain.py lines
121-181): returns the accepted valid-list and the registry after committing
the accumulated deltas. -/
def processValidTransactions (accounts : Accounts) (txs : List Transaction) :
    List Transaction × Accounts :=
  let p := buildValidDeltas accounts txs [] []
  (p.1, commitDeltas accounts p.2)

/-- `Blockchain.create_new_block` (src/Blockchain.py lines 185-192): try the
all-or-nothing path; on failure fall back to the drop-invalid path; seal a
block holding whichever transaction list resulted and clear the pending pool.
The sealed block's proof-of-work fields (previous hash, mined nonce, hash)
live in `Block.py`, outside src/, and are not represented here. -/
def createNewBlock (st : ChainState) : ChainState :=
  match processTransactions st.accounts st.pendingTransactions with
  | some accounts2 =>
      { chain :=
          st.chain ++ [⟨st.chain.length, st.pendingTransactions⟩],
        pendingTransactions := [],
        accounts := accounts2 }
  | none =>
      let p := processValidTransactions st.accounts st.pendingTransactions
      { chain := st.chain ++ [⟨st.chain.length, p.1⟩],
        pendingTransactions := [],
        accounts := p.2 }

/-- The one Python exception the admission path can raise to its caller:
`__validate_transaction` only catches `InvalidSignature`, so the
`AttributeError` raised by `None.public_key` for an unregistered sender
propagates (src/Blockchain.py lines 54-68). -/
inductive PyErr where
  | attributeError
  deriving DecidableEq

/-- `Blockchain.__validate_transaction` (src/Blockchain.py lines 42-70).
`verify pk m sig` abstracts loading the sender's PEM key and the RSA-PSS
verification of the signature against the canonical message digest; the
caught `InvalidSignature` branch is `verify … = false`.  When the sender is
not registered, `self._accounts.get(...)` yields `None` and the `.public_key`
access raises `AttributeError`, which is not caught. -/
def validateTransaction (accounts : Accounts)
    (verify : Nat → Msg → Nat → Bool) (t : Transaction) :
    Except PyErr Bool :=
  match alFind accounts t.message.sender with
  | none => Except.error PyErr.attributeError
  | some sa => Except.ok (verify sa.publicKey t.message t.signature)

/-- `Blockchain.add_transaction` (src/Blockchain.py lines 196-202): append
to the pending pool and return `True` when validation succeeds, return
`False` otherwise; an exception from validation propagates with the state
untouched. -/
def addTransaction (verify : Nat → Msg → Nat → Bool) (st : ChainState)
    (t : Transaction) : Except PyErr Bool × ChainState :=
  match validateTransaction st.accounts verify t with
  | Except.error e => (Except.error e, st)
  | Except.ok true =>
      (Except.ok true,
       { st with pendingTransactions := st.pendingTransactions ++ [t] })
  | Except.ok false => (Except.ok false, st)

/-- `Account.create_transaction` (src/Account.py lines 69-98): build the
message with `nonce = self._nonce + 1`, sign it (`sign` abstracts hashing the
canonical serialization and RSA-PSS signing with the account's private key),
then commit the incremented nonce. -/
def createTransaction (sign : Msg → Nat) (a : Account) (receiverId : String)
    (value : Int) (txMetadata : String) : Transaction × Account :=
  let nonce := a.nonce + 1
  let m : Msg :=
    { sender := a.id, receiver := receiverId, value := value,
      txMetadata := txMetadata, nonce := nonce }
  (⟨m, sign m⟩, { a with nonce := nonce })

/-- N successive `create_transaction` calls on one account, threading the
account state; returns the produced transactions in order and the final
account state. -/
def createTransactions (sign : Msg → Nat) (a : Account) :
    List (String × Int × String) → List Transaction × Account
  | [] => ([], a)
  | r :: rest =>
    let p := createTransaction sign a r.1 r.2.1 r.2.2
    let q := createTransactions sign p.2 rest
    (p.1 :: q.1, q.2)

/-- Python's stable `sorted(l, key=key)` (ascending), as used at
src/Blockchain.py lines 279 and 281: stable insertion sort. -/
def insertStable {α : Type} (key : α → Nat) (x : α) : List α → List α
  | [] => [x]
  | y :: ys => if key y < key x then y :: insertStable key x ys
               else x :: y :: ys

def sortByKey {α : Type} (key : α → Nat) : List α → List α
  | [] => []
  | x :: xs => insertStable key x (sortByKey key xs)

/-- The replay order of `__validate_complete_account_balances`
(src/Blockchain.py lines 279-282): blocks sorted ascending by index, and
within each block the transaction messages sorted ascending by nonce. -/
def orderedMessages (chain : List Block) : List Msg :=
  (sortByKey Block.index chain).flatMap
    (fun b => sortByKey Msg.nonce (b.transactions.map Transaction.message))

/-- One replayed transaction (src/Blockchain.py lines 286-287): credit the
receiver, then debit the sender, each defaulting a missing id to balance 0. -/
def applyMsg (bal : List (String × Int)) (m : Msg) : List (String × Int) :=
  let b1 := alSet bal m.receiver (alGetD bal m.receiver 0 + m.value)
  alSet b1 m.sender (alGetD b1 m.sender 0 - m.value)

/-- The replay loop of `__validate_complete_account_balances`
(src/Blockchain.py lines 282-289): apply each message in order and fail
(`none`) as soon as a debit leaves the sender's running balance negative. -/
def replayMsgs (bal : List (String × Int)) : List Msg → Option (List (String × Int))
  | [] => some bal
  | m :: rest =>
    let b := applyMsg bal m
    if alGetD b m.sender 0 < 0 then none else replayMsgs b rest

/-- The seed balances of the replay (src/Blockchain.py lines 276-278): every
registered account starts at its `initial_balance`. -/
def initBal (accounts : Accounts) : List (String × Int) :=
  accounts.map (fun p => (p.1, p.2.initialBalance))

/-- `Blockchain.__validate_complete_account_balances`
(src/Blockchain.py lines 249-290, the active non-commented implementation). -/
def validateCompleteAccountBalances (accounts : Accounts)
    (chain : List Block) : Bool :=
  (replayMsgs (initBal accounts) (orderedMessages chain)).isSome

/-- Modelled from the spec: `Block.py` is not under src/, so the
proof-of-work view of a block is taken from the spec's data model (§3
**Block**, §4.3): `index` (0 for genesis), the stored content hash
`block_hash` and the stored difficulty bound `hash_target`, both hex strings
that the validation pass reads as base-16 integers — modelled here as the
parsed natural numbers. -/
structure BlockPoW where
  index : Nat
  blockHash : Nat
  hashTarget : Nat
  deriving DecidableEq

/-- `Blockchain.__validate_block_hash_target` (src/Blockchain.py lines
227-247).  `hashBlock` abstracts `Block.hash_block()` (modelled from the
spec §4.3: a pure recomputation of the content hash from the block's current
fields).  Blocks with index 0 are skipped; any other block fails the pass if
its stored hash differs from the recomputation or is not strictly below its
own stored target. -/
def validateBlockHashTarget (hashBlock : BlockPoW → Nat) :
    List BlockPoW → Bool
  | [] => true
  | b :: rest =>
    if b.index = 0 then validateBlockHashTarget hashBlock rest
    else if hashBlock b ≠ b.blockHash then false
    else if b.hashTarget ≤ b.blockHash then false
    else validateBlockHashTarget hashBlock rest

/-- Spec-side definition (for claim C1, from §4.5 step 1 of the spec): the
net delta of an account id across a batch of messages — receipts minus
outlays. -/
def netDelta (msgs : List Msg) (accountId : String) : Int :=
  msgs.foldl
    (fun acc m =>
      acc + (if m.receiver = accountId then m.value else 0)
          - (if m.sender = accountId then m.value else 0)) 0

/-- Spec-side definition (for claim C1, from §4.5 step 1 of the spec): every
registered account whose net delta over the batch is negative has a current
balance covering the magnitude of that delta. -/
def coversAggregateDeltas (accounts : Accounts) (msgs : List Msg) : Bool :=
  accounts.all (fun p =>
    !(netDelta msgs p.1 < 0) || (-(netDelta msgs p.1) ≤ p.2.balance))

/-- Shorthand for a signed transaction with opaque signature material 0. -/
def exTx (s r : String) (v : Int) (n : Nat) : Transaction :=
  ⟨⟨s, r, v, "", n⟩, 0⟩

/-- Registry for the C1 counterexample: A and B, both with balance 100. -/
def c1Accounts : Accounts :=
  [("A", Account.init "A" 1 100), ("B", Account.init "B" 2 100)]

/-- Pending batch for the C1 counterexample: A sends B 60 twice, an aggregate
outlay of 120 against A's balance of 100. -/
def c1Txs : List Transaction := [exTx "A" "B" 60 1, exTx "A" "B" 60 2]

/-- Registry for the C2 failing input: A with balance 5, B with 200, C with 0. -/
def c2Accounts : Accounts :=
  [("A", Account.init "A" 1 5), ("B", Account.init "B" 2 200),
   ("C", Account.init "C" 3 0)]

/-- Pending batch for the C2 failing input: B pays A 100, then A pays C 3. -/
def c2Txs : List Transaction := [exTx "B" "A" 100 1, exTx "A" "C" 3 1]

/-- A verifier that accepts everything (the signature layer is irrelevant to
the admission-path counterexample: the crash happens before verification). -/
def verifyAlways : Nat → Msg → Nat → Bool := fun _ _ _ => true

/-- A verifier that rejects everything. -/
def verifyNever : Nat → Msg → Nat → Bool := fun _ _ _ => false

/-- Ledger state for the C3 counterexample: account X is not registered. -/
def admState : ChainState :=
  { chain := [⟨0, []⟩], pendingTransactions := [],
    accounts := [("A", Account.init "A" 1 100)] }

/-- A transaction whose sender X is absent from `admState`'s registry. -/
def c3Tx : Transaction := exTx "X" "A" 10 1

theorem alFind_alSet_self {α : Type} (d : List (String × α)) (k : String)
    (v : α) : alFind (alSet d k v) k = some v := by
  induction d with
  | nil => simp [alFind, alSet]
  | cons p rest ih =>
    by_cases h : p.1 = k
    · simp [alFind, alSet, h]
    · simp [alFind, alSet, h, ih]

theorem alKeys_cons {α : Type} (p : String × α) (rest : List (String × α)) :
    alKeys (p :: rest) = p.1 :: alKeys rest := rfl

theorem alFind_alSet_ne {α : Type} (d : List (String × α)) (k k' : String)
    (v : α) (h : k' ≠ k) : alFind (alSet d k v) k' = alFind d k' := by
  have hkk : ¬ k = k' := fun hk => h hk.symm
  induction d with
  | nil => simp [alFind, alSet, hkk]
  | cons p rest ih =>
    by_cases hp : p.1 = k
    · have hp' : ¬ p.1 = k' := by rw [hp]; exact hkk
      simp [alFind, alSet, hp, hkk, hp']
    · by_cases hp' : p.1 = k'
      · simp [alFind, alSet, hp, hp', h]
      · simp [alFind, alSet, hp, hp', ih]

theorem alGetD_alSet {α : Type} (d : List (String × α)) (k k' : String)
    (v dflt : α) :
    alGetD (alSet d k v) k' dflt = if k' = k then v else alGetD d k' dflt := by
  by_cases h : k' = k
  · subst h; simp [alGetD, alFind_alSet_self]
  · simp [alGetD, h, alFind_alSet_ne d k k' v h]

theorem alFind_eq_none_iff {α : Type} (d : List (String × α)) (k : String) :
    alFind d k = none ↔ k ∉ alKeys d := by
  induction d with
  | nil => simp [alFind, alKeys]
  | cons p rest ih =>
    have hiff : k ∈ alKeys (p :: rest) ↔ k = p.1 ∨ k ∈ alKeys rest := by
      rw [alKeys_cons]; exact List.mem_cons
    by_cases h : p.1 = k
    · simp [alFind, h, hiff]
    · have h' : ¬ k = p.1 := fun hk => h hk.symm
      rw [alFind, if_neg h, ih, hiff]
      simp [h']

theorem mem_alKeys_alSet {α : Type} (d : List (String × α)) (k k' : String)
    (v : α) : k' ∈ alKeys (alSet d k v) ↔ k' ∈ alKeys d ∨ k' = k := by
  induction d with
  | nil => simp [alSet, alKeys]
  | cons p rest ih =>
    by_cases hp : p.1 = k
    · rw [alSet, if_pos hp, alKeys_cons, alKeys_cons]
      simp only [List.mem_cons, hp]
      tauto
    · rw [alSet, if_neg hp, alKeys_cons, alKeys_cons]
      simp only [List.mem_cons, ih]
      tauto

theorem alKeys_nodup_alSet {α : Type} (d : List (String × α)) (k : String)
    (v : α) (h : (alKeys d).Nodup) : (alKeys (alSet d k v)).Nodup := by
  induction d with
  | nil => simp [alSet, alKeys]
  | cons p rest ih =>
    rw [alKeys_cons, List.nodup_cons] at h
    by_cases hp : p.1 = k
    · rw [alSet, if_pos hp, alKeys_cons, List.nodup_cons]
      exact ⟨by rw [hp] at h; exact h.1, h.2⟩
    · rw [alSet, if_neg hp, alKeys_cons, List.nodup_cons]
      refine ⟨?_, ih h.2⟩
      intro hmem
      rcases (mem_alKeys_alSet rest k p.1 v).mp hmem with hin | hEq
      · exact h.1 hin
      · exact hp hEq

theorem alFind_increaseBalanceA_ne (accounts : Accounts) (k i : String)
    (v : Int) (h : i ≠ k) :
    alFind (increaseBalanceA accounts k v) i = alFind accounts i := by
  unfold increaseBalanceA
  cases alFind accounts k with
  | none => rfl
  | some a => exact alFind_alSet_ne accounts k i _ h

theorem alFind_increaseBalanceA_self (accounts : Accounts) (k : String)
    (v : Int) (a : Account) (h : alFind accounts k = some a) :
    alFind (increaseBalanceA accounts k v) k
      = some { a with balance := a.balance + v } := by
  unfold increaseBalanceA
  rw [h]
  exact alFind_alSet_self accounts k _

theorem commitDeltas_nil (accounts : Accounts) :
    commitDeltas accounts [] = accounts := rfl

theorem commitDeltas_cons (accounts : Accounts) (k : String) (v : Int)
    (rest : List (String × Int)) :
    commitDeltas accounts ((k, v) :: rest)
      = commitDeltas (increaseBalanceA accounts k v) rest := rfl

/-- What the shared commit loop does to each registered account: add the
dict's delta for its id (0 when the id holds no delta).  Requires the delta
dict's keys to be duplicate-free, which both settlement loops guarantee. -/
theorem alFind_commitDeltas (d : List (String × Int)) :
    ∀ (accounts : Accounts) (i : String) (a : Account),
    (alKeys d).Nodup → alFind accounts i = some a →
    alFind (commitDeltas accounts d) i
      = some { a with balance := a.balance + alGetD d i 0 } := by
  induction d with
  | nil =>
    intro accounts i a _ h
    simp [commitDeltas_nil, alGetD, alFind, h]
  | cons kv rest ih =>
    intro accounts i a hnd h
    obtain ⟨k, v⟩ := kv
    simp only [alKeys, List.map_cons, List.nodup_cons] at hnd
    rw [commitDeltas_cons]
    by_cases hik : i = k
    · subst hik
      have h1 := alFind_increaseBalanceA_self accounts i v a h
      have h2 := ih (increaseBalanceA accounts i v) i _ hnd.2 h1
      rw [h2]
      have hrest : alFind rest i = none :=
        (alFind_eq_none_iff rest i).mpr (by simpa [alKeys] using hnd.1)
      simp [alGetD, alFind, hrest]
    · have h1 : alFind (increaseBalanceA accounts k v) i = alFind accounts i :=
        alFind_increaseBalanceA_ne accounts k i v hik
      have h2 := ih (increaseBalanceA accounts k v) i a hnd.2 (h1.trans h)
      rw [h2]
      have hki : ¬ k = i := fun hk => hik hk.symm
      simp [alGetD, alFind, hki]

/-- Unfolding equation: one iteration of the all-or-nothing scanning loop is
the guard `stepOkB` followed by the dict update `stepNext`. -/
theorem buildDeltas_cons (accounts : Accounts) (m : Msg) (rest : List Msg)
    (tdict : List (String × Int)) :
    buildDeltas accounts (m :: rest) tdict =
      if stepOkB accounts tdict m then
        buildDeltas accounts rest (stepNext tdict m)
      else none := by
  cases hs : alFind accounts m.sender with
  | none => simp [buildDeltas, stepOkB, hs]
  | some sa =>
    cases hrf : alFind accounts m.receiver with
    | none => simp [buildDeltas, stepOkB, hs, hrf]
    | some ra =>
      by_cases hv : sa.balance < m.value
      · simp [buildDeltas, stepOkB, hs, hrf, hv]
      · by_cases hd : sa.balance < alGetD tdict m.sender 0 - m.value
        · simp [buildDeltas, stepOkB, hs, hrf, hv, hd]
        · simp [buildDeltas, stepOkB, stepNext, hs, hrf, hv, hd]

theorem stepNext_nodup (tdict : List (String × Int)) (m : Msg)
    (h : (alKeys tdict).Nodup) : (alKeys (stepNext tdict m)).Nodup := by
  unfold stepNext
  exact alKeys_nodup_alSet _ _ _ (alKeys_nodup_alSet _ _ _ h)

/-- The delta dict built by the all-or-nothing scan has duplicate-free keys
(it starts empty and grows only through dict assignment). -/
theorem buildDeltas_nodup (accounts : Accounts) :
    ∀ (msgs : List Msg) (tdict d : List (String × Int)),
    (alKeys tdict).Nodup → buildDeltas accounts msgs tdict = some d →
    (alKeys d).Nodup := by
  intro msgs
  induction msgs with
  | nil =>
    intro tdict d h hEq
    rw [buildDeltas] at hEq
    cases hEq
    exact h
  | cons m rest ih =>
    intro tdict d h hEq
    rw [buildDeltas_cons] at hEq
    by_cases hs : stepOkB accounts tdict m = true
    · rw [if_pos hs] at hEq
      exact ih (stepNext tdict m) d (stepNext_nodup tdict m h) hEq
    · rw [if_neg hs] at hEq
      cases hEq

/-- Prefix characterization of the all-or-nothing scan: it succeeds exactly
when every message of the batch passes the guard against the delta dict
accumulated over the messages before it. -/
theorem buildDeltas_some_iff (accounts : Accounts) :
    ∀ (msgs : List Msg) (tdict : List (String × Int)),
    (buildDeltas accounts msgs tdict).isSome = true ↔
      ∀ pre m post d, msgs = pre ++ m :: post →
        buildDeltas accounts pre tdict = some d →
        stepOkB accounts d m = true := by
  intro msgs
  induction msgs with
  | nil =>
    intro tdict
    constructor
    · intro _ pre m post d hEq
      cases pre <;> simp at hEq
    · intro _
      rw [buildDeltas]
      rfl
  | cons m0 rest ih =>
    intro tdict
    rw [buildDeltas_cons]
    by_cases h : stepOkB accounts tdict m0 = true
    · rw [if_pos h, ih (stepNext tdict m0)]
      constructor
      · intro H pre m post d hEq hPre
        cases pre with
        | nil =>
          simp only [List.nil_append, List.cons.injEq] at hEq
          obtain ⟨h1, h2⟩ := hEq
          rw [buildDeltas] at hPre
          cases hPre
          rw [← h1]
          exact h
        | cons p ps =>
          simp only [List.cons_append, List.cons.injEq] at hEq
          obtain ⟨h1, h2⟩ := hEq
          rw [← h1, buildDeltas_cons, if_pos h] at hPre
          exact H ps m post d h2 hPre
      · intro H pre m post d hEq hPre
        refine H (m0 :: pre) m post d (by rw [hEq]; rfl) ?_
        rw [buildDeltas_cons, if_pos h]
        exact hPre
    · rw [if_neg h]
      simp only [Option.isSome_none, Bool.false_eq_true, false_iff, not_forall]
      refine ⟨[], m0, rest, tdict, rfl, ?_, h⟩
      rw [buildDeltas]

/-- Unfolding equation for one replayed transaction of the balance
validation pass. -/
theorem replayMsgs_cons (bal : List (String × Int)) (m : Msg)
    (rest : List Msg) :
    replayMsgs bal (m :: rest) =
      if alGetD (applyMsg bal m) m.sender 0 < 0 then none
      else replayMsgs (applyMsg bal m) rest := rfl

/-- Prefix characterization of the balance replay loop: it succeeds exactly
when no replayed transaction, applied to the balances accumulated over the
messages before it, leaves its sender's running balance negative. -/
theorem replayMsgs_some_iff :
    ∀ (msgs : List Msg) (bal : List (String × Int)),
    (replayMsgs bal msgs).isSome = true ↔
      ∀ pre m post b, msgs = pre ++ m :: post →
        replayMsgs bal pre = some b →
        0 ≤ alGetD (applyMsg b m) m.sender 0 := by
  intro msgs
  induction msgs with
  | nil =>
    intro bal
    constructor
    · intro _ pre m post b hEq
      cases pre <;> simp at hEq
    · intro _
      rw [replayMsgs]
      rfl
  | cons m0 rest ih =>
    intro bal
    rw [replayMsgs_cons]
    by_cases h : alGetD (applyMsg bal m0) m0.sender 0 < 0
    · rw [if_pos h]
      simp only [Option.isSome_none, Bool.false_eq_true, false_iff, not_forall]
      exact ⟨[], m0, rest, bal, rfl, by rw [replayMsgs], by simpa using h⟩
    · rw [if_neg h, ih (applyMsg bal m0)]
      constructor
      · intro H pre m post b hEq hPre
        cases pre with
        | nil =>
          simp only [List.nil_append, List.cons.injEq] at hEq
          obtain ⟨h1, h2⟩ := hEq
          rw [replayMsgs] at hPre
          cases hPre
          rw [← h1]
          exact le_of_not_lt h
        | cons p ps =>
          simp only [List.cons_append, List.cons.injEq] at hEq
          obtain ⟨h1, h2⟩ := hEq
          rw [← h1, replayMsgs_cons, if_neg h] at hPre
          exact H ps m post b h2 hPre
      · intro H pre m post b hEq hPre
        refine H (m0 :: pre) m post b (by rw [hEq]; rfl) ?_
        rw [replayMsgs_cons, if_neg h]
        exact hPre

theorem alFind_initBal (accounts : Accounts) (k : String) :
    alFind (initBal accounts) k
      = (alFind accounts k).map Account.initialBalance := by
  induction accounts with
  | nil => rfl
  | cons p rest ih =>
    by_cases h : p.1 = k
    · simp [initBal, alFind, h]
    · simp only [initBal, List.map_cons, alFind, h, if_neg]
      exact ih

/-- Two balance dicts that agree on every id (with default 0) behave the same. -/
def EqD (d1 d2 : List (String × Int)) : Prop :=
  ∀ k, alGetD d1 k 0 = alGetD d2 k 0

theorem applyMsg_ext (m : Msg) (d1 d2 : List (String × Int)) (h : EqD d1 d2) :
    EqD (applyMsg d1 m) (applyMsg d2 m) := by
  intro k
  unfold applyMsg
  simp only [alGetD_alSet, h m.receiver, h m.sender, h k]

theorem replayMsgs_ext :
    ∀ (msgs : List Msg) (d1 d2 : List (String × Int)), EqD d1 d2 →
    (replayMsgs d1 msgs).isSome = (replayMsgs d2 msgs).isSome := by
  intro msgs
  induction msgs with
  | nil => intro d1 d2 _; rfl
  | cons m rest ih =>
    intro d1 d2 h
    rw [replayMsgs_cons, replayMsgs_cons]
    have hc : alGetD (applyMsg d1 m) m.sender 0
        = alGetD (applyMsg d2 m) m.sender 0 := applyMsg_ext m d1 d2 h m.sender
    rw [hc]
    by_cases hlt : alGetD (applyMsg d2 m) m.sender 0 < 0
    · rw [if_pos hlt, if_pos hlt]
    · rw [if_neg hlt, if_neg hlt]
      exact ih _ _ (applyMsg_ext m d1 d2 h)

/-- Registering a previously unknown id with initial balance 0 does not
change the seed balances the replay pass sees. -/
theorem initBal_register_zero (accounts : Accounts) (idX : String) (pk : Nat)
    (h : alFind accounts idX = none) :
    EqD (initBal (alSet accounts idX (Account.init idX pk 0)))
      (initBal accounts) := by
  intro k
  rw [alGetD, alGetD, alFind_initBal, alFind_initBal]
  by_cases hk : k = idX
  · subst hk
    rw [alFind_alSet_self, h]
    rfl
  · rw [alFind_alSet_ne accounts idX k _ hk]

theorem processTransactions_isSome (accounts : Accounts)
    (txs : List Transaction) :
    (processTransactions accounts txs).isSome
      = (buildDeltas accounts (txs.map Transaction.message) []).isSome := by
  unfold processTransactions
  cases buildDeltas accounts (txs.map Transaction.message) [] <;> rfl

theorem addTransaction_ok_true (verify : Nat → Msg → Nat → Bool)
    (st : ChainState) (t : Transaction)
    (h : validateTransaction st.accounts verify t = Except.ok true) :
    addTransaction verify st t =
      (Except.ok true,
       { st with pendingTransactions := st.pendingTransactions ++ [t] }) := by
  unfold addTransaction
  rw [h]

theorem addTransaction_ok_false (verify : Nat → Msg → Nat → Bool)
    (st : ChainState) (t : Transaction)
    (h : validateTransaction st.accounts verify t = Except.ok false) :
    addTransaction verify st t = (Except.ok false, st) := by
  unfold addTransaction
  rw [h]

theorem addTransaction_ok_true_inv (verify : Nat → Msg → Nat → Bool)
    (st st2 : ChainState) (t : Transaction)
    (h : addTransaction verify st t = (Except.ok true, st2)) :
    validateTransaction st.accounts verify t = Except.ok true
    ∧ st2 = { st with pendingTransactions := st.pendingTransactions ++ [t] } := by
  unfold addTransaction at h
  cases hv : validateTransaction st.accounts verify t with
  | error e =>
    rw [hv] at h
    exact absurd (congrArg Prod.fst h) (by simp)
  | ok b =>
    cases b
    · rw [hv] at h
      exact absurd (congrArg Prod.fst h) (by simp)
    · rw [hv] at h
      exact ⟨rfl, (congrArg Prod.snd h).symm⟩

/-- Chain used to instantiate the balance-replay theorems: a genesis block
and one sealed block holding a single A→B transfer of 60. -/
def c4Chain : List Block := [⟨0, []⟩, ⟨1, [exTx "A" "B" 60 1]⟩]

/-- Chain used to instantiate the unknown-id replay theorem: one sealed block
in which registered A pays 5 to the unregistered id Z. -/
def c10Chain : List Block := [⟨0, []⟩, ⟨1, [exTx "A" "Z" 5 1]⟩]

/-- Claim C4: the balance-replay validation pass starts every registered
account at its `initial_balance`, replays the chain's transaction messages in
(block index, transaction nonce) ascending order (the order `orderedMessages`
computes) crediting the receiver and debiting the sender, and succeeds if and
only if no debit leaves its sender's running balance negative at the point it
occurs. -/
theorem validateCompleteAccountBalances_iff (accounts : Accounts)
    (chain : List Block) :
    (∀ i a, alFind accounts i = some a →
        alGetD (initBal accounts) i 0 = a.initialBalance)
    ∧ (validateCompleteAccountBalances accounts chain = true ↔
        ∀ pre m post b, orderedMessages chain = pre ++ m :: post →
          replayMsgs (initBal accounts) pre = some b →
          0 ≤ alGetD (applyMsg b m) m.sender 0) := by
  constructor
  · intro i a h
    rw [alGetD, alFind_initBal, h]
    rfl
  · unfold validateCompleteAccountBalances
    exact replayMsgs_some_iff (orderedMessages chain) (initBal accounts)

/-- Instance of `validateCompleteAccountBalances_iff` at a concrete chain:
A starts the replay at its initial balance 100, and the single replayed
debit of 60 leaves A's running balance non-negative. -/
theorem validateCompleteAccountBalances_iff_witness :
    alGetD (initBal c1Accounts) "A" 0 = (100 : Int)
    ∧ 0 ≤ alGetD (applyMsg (initBal c1Accounts) (exTx "A" "B" 60 1).message)
        (exTx "A" "B" 60 1).message.sender 0 := by
  constructor
  · have h := (validateCompleteAccountBalances_iff c1Accounts c4Chain).1 "A"
      (Account.init "A" 1 100) (by decide)
    simpa using h
  · exact ((validateCompleteAccountBalances_iff c1Accounts c4Chain).2.mp
      (by decide)) [] (exTx "A" "B" 60 1).message [] (initBal c1Accounts)
      (by decide) (by decide)

/-- Claim C10: the balance-replay pass treats an id absent from the account
registry as starting from balance 0, and never fails merely because of such
an id — registering the absent id with balance (and initial balance) 0
yields the identical verdict on every chain. -/
theorem replay_unknown_ids_start_at_zero (accounts : Accounts)
    (chain : List Block) (idX : String) (pk : Nat)
    (h : alFind accounts idX = none) :
    alGetD (initBal accounts) idX 0 = 0
    ∧ validateCompleteAccountBalances
        (alSet accounts idX (Account.init idX pk 0)) chain
      = validateCompleteAccountBalances accounts chain := by
  constructor
  · rw [alGetD, alFind_initBal, h]
    rfl
  · unfold validateCompleteAccountBalances
    exact replayMsgs_ext (orderedMessages chain) _ _
      (initBal_register_zero accounts idX pk h)

/-- Instance of `replay_unknown_ids_start_at_zero` at a concrete chain whose
sealed block pays the unregistered id Z. -/
theorem replay_unknown_ids_start_at_zero_witness :
    alGetD (initBal c1Accounts) "Z" 0 = 0
    ∧ validateCompleteAccountBalances
        (alSet c1Accounts "Z" (Account.init "Z" 9 0)) c10Chain
      = validateCompleteAccountBalances c1Accounts c10Chain :=
  replay_unknown_ids_start_at_zero c1Accounts c10Chain "Z" 9 (by decide)

/-- Claim C5: the proof-of-work validation pass accepts a chain exactly when
every block of non-zero index (the genesis block, index 0, is exempt from
both checks) has a stored hash equal to the fresh `hash_block()`
recomputation and strictly below the block's own stored target, both read as
base-16 integers. -/
theorem validateBlockHashTarget_iff (hashBlock : BlockPoW → Nat) :
    ∀ chain : List BlockPoW,
    validateBlockHashTarget hashBlock chain = true ↔
      ∀ b ∈ chain, b.index ≠ 0 →
        hashBlock b = b.blockHash ∧ b.blockHash < b.hashTarget := by
  intro chain
  induction chain with
  | nil => simp [validateBlockHashTarget]
  | cons b rest ih =>
    rw [validateBlockHashTarget]
    by_cases h0 : b.index = 0
    · rw [if_pos h0, ih]
      constructor
      · intro H b' hb' hb'0
        rcases List.mem_cons.mp hb' with hEq | hmem
        · exact absurd (hEq ▸ h0) hb'0
        · exact H b' hmem hb'0
      · intro H b' hb' hb'0
        exact H b' (List.mem_cons_of_mem b hb') hb'0
    · rw [if_neg h0]
      by_cases hh : hashBlock b ≠ b.blockHash
      · rw [if_pos hh]
        simp only [Bool.false_eq_true, false_iff, not_forall]
        exact ⟨b, by simp, by simp [h0], fun hc => absurd hc.1 hh⟩
      · rw [if_neg hh]
        push_neg at hh
        by_cases ht : b.hashTarget ≤ b.blockHash
        · rw [if_pos ht]
          simp only [Bool.false_eq_true, false_iff, not_forall]
          exact ⟨b, by simp, by simp [h0],
            fun hc => absurd hc.2 (not_lt.mpr ht)⟩
        · rw [if_neg ht, ih]
          constructor
          · intro H b' hb' hb'0
            rcases List.mem_cons.mp hb' with hEq | hmem
            · exact hEq ▸ ⟨hh, lt_of_not_le ht⟩
            · exact H b' hmem hb'0
          · intro H b' hb' hb'0
            exact H b' (List.mem_cons_of_mem b hb') hb'0

/-- Instance of `validateBlockHashTarget_iff` on a two-block chain: the
genesis block's hash violates its target but is exempt, and the other block
satisfies both checks, so the pass accepts. -/
theorem validateBlockHashTarget_iff_witness :
    validateBlockHashTarget BlockPoW.blockHash
      [⟨0, 999, 5⟩, ⟨1, 3, 5⟩] = true := by
  rw [validateBlockHashTarget_iff BlockPoW.blockHash [⟨0, 999, 5⟩, ⟨1, 3, 5⟩]]
  decide

/-- Claim C1 as stated is false on the code: with A and B both holding 100
and a pending batch of two A→B transfers of 60, A's aggregate net delta is
−120, whose magnitude exceeds A's balance, yet the all-or-nothing path
succeeds (the source's running-delta guard compares the balance against the
signed delta, not its magnitude, and so never fires here) — the claimed
equivalence with the aggregate-coverage condition fails at this input. -/
theorem allOrNothing_claim_counterexample :
    ¬ (((processTransactions c1Accounts c1Txs).isSome = true) ↔
        coversAggregateDeltas c1Accounts (c1Txs.map Transaction.message)
          = true) := by
  decide

/-- Claim C1 (amended): the all-or-nothing path succeeds iff every pending
transaction, scanned in order, passes the source's guards against the
running-delta dict built from the transactions before it (sender and
receiver registered, value at most the sender's live pre-batch balance, and
the sender's live balance not below the sender's running net delta after the
debit — a signed comparison, not a magnitude check); on success
`create_new_block` seals a block holding the full pending batch, clears the
pool, and commits every accumulated net delta at once to the registered
accounts. -/
theorem allOrNothing_settlement (st : ChainState) :
    ((processTransactions st.accounts st.pendingTransactions).isSome = true ↔
      ∀ pre m post d,
        st.pendingTransactions.map Transaction.message = pre ++ m :: post →
        buildDeltas st.accounts pre [] = some d →
        stepOkB st.accounts d m = true)
    ∧ ∀ accounts2,
        processTransactions st.accounts st.pendingTransactions
            = some accounts2 →
        createNewBlock st =
          { chain := st.chain ++ [⟨st.chain.length, st.pendingTransactions⟩],
            pendingTransactions := [], accounts := accounts2 }
        ∧ ∃ d, buildDeltas st.accounts
              (st.pendingTransactions.map Transaction.message) [] = some d
            ∧ ∀ i a, alFind st.accounts i = some a →
                alFind accounts2 i
                  = some { a with balance := a.balance + alGetD d i 0 } := by
  constructor
  · rw [← buildDeltas_some_iff st.accounts
      (st.pendingTransactions.map Transaction.message) [],
      ← processTransactions_isSome]
  · intro accounts2 hp
    have hbd : ∃ d, buildDeltas st.accounts
        (st.pendingTransactions.map Transaction.message) [] = some d
        ∧ accounts2 = commitDeltas st.accounts d := by
      unfold processTransactions at hp
      cases hb : buildDeltas st.accounts
          (st.pendingTransactions.map Transaction.message) [] with
      | none => rw [hb] at hp; cases hp
      | some d =>
        rw [hb] at hp
        exact ⟨d, rfl, (Option.some.inj hp).symm⟩
    obtain ⟨d, hb, ha2⟩ := hbd
    constructor
    · unfold createNewBlock
      rw [hp]
    · refine ⟨d, hb, ?_⟩
      intro i a hia
      rw [ha2]
      exact alFind_commitDeltas d st.accounts i a
        (buildDeltas_nodup st.accounts _ [] d List.nodup_nil hb) hia

/-- A ledger state on which the all-or-nothing path succeeds: genesis plus a
pending A→B transfer of 10. -/
def c1OkState : ChainState :=
  { chain := [⟨0, []⟩], pendingTransactions := [exTx "A" "B" 10 1],
    accounts := c1Accounts }

/-- The registry expected after sealing `c1OkState`: A debited to 90, B
credited to 110. -/
def c1OkAccounts2 : Accounts :=
  [("A", { id := "A", balance := 90, initialBalance := 100, nonce := 0,
           publicKey := 1 }),
   ("B", { id := "B", balance := 110, initialBalance := 100, nonce := 0,
           publicKey := 2 })]

/-- Instance of `allOrNothing_settlement`: sealing `c1OkState` produces a
block with the full batch and the committed registry `c1OkAccounts2`. -/
theorem allOrNothing_settlement_witness :
    createNewBlock c1OkState =
      { chain := [⟨0, []⟩, ⟨1, [exTx "A" "B" 10 1]⟩],
        pendingTransactions := [], accounts := c1OkAccounts2 } :=
  ((allOrNothing_settlement c1OkState).2 c1OkAccounts2 (by decide)).1

/-- Claim C2 fails on the code: with A holding 5, B holding 200, C holding 0
and pending [B→A 100, A→C 3], the fallback path rejects A→C (the running
delta 97 "exceeds" A's balance 5 under the source's signed comparison) but
has already debited A's running delta by 3, and that leaked debit is
committed: the valid-list is only [B→A 100], whose net delta for A is +100,
yet A's committed balance is 5 + 97 = 102, not 105 — the rejected transaction
changed its sender's balance. -/
theorem fallback_rejected_tx_moves_balance :
    (processValidTransactions c2Accounts c2Txs).1 = [exTx "B" "A" 100 1]
    ∧ (alFind (processValidTransactions c2Accounts c2Txs).2 "A").map
        Account.balance = some 102
    ∧ (5 : Int) + netDelta
        ((processValidTransactions c2Accounts c2Txs).1.map
          Transaction.message) "A" = 105 := by
  decide

/-- Claim C3 as stated is false on the code: for a transaction whose sender
is not in the registry, `add_transaction` does not return `False` — the
`AttributeError` from `None.public_key` propagates to the caller. -/
theorem unknown_sender_claim_counterexample :
    (addTransaction verifyAlways admState c3Tx).1 ≠ Except.ok false
    ∧ (addTransaction verifyAlways admState c3Tx).1
        = Except.error PyErr.attributeError := by
  refine ⟨?_, rfl⟩
  intro h
  exact nomatch h

/-- Claim C3 (amended): for a sender absent from the registry,
`add_transaction` raises `AttributeError` to its caller (the pool is left
unchanged) instead of returning `False`; only a failed signature
verification for a registered sender produces the `False` return. -/
theorem unknown_sender_raises (verify : Nat → Msg → Nat → Bool)
    (st : ChainState) (t : Transaction) :
    (alFind st.accounts t.message.sender = none →
      addTransaction verify st t = (Except.error PyErr.attributeError, st))
    ∧ ∀ sa, alFind st.accounts t.message.sender = some sa →
        verify sa.publicKey t.message t.signature = false →
        addTransaction verify st t = (Except.ok false, st) := by
  constructor
  · intro h
    unfold addTransaction validateTransaction
    rw [h]
  · intro sa hsa hv
    apply addTransaction_ok_false
    unfold validateTransaction
    rw [hsa]
    simp [hv]

/-- Instance of `unknown_sender_raises`: the unregistered sender X raises,
and a registered sender with a failing verifier gets `False`. -/
theorem unknown_sender_raises_witness :
    addTransaction verifyAlways admState c3Tx
      = (Except.error PyErr.attributeError, admState)
    ∧ addTransaction verifyNever admState (exTx "A" "B" 10 1)
      = (Except.ok false, admState) :=
  ⟨(unknown_sender_raises verifyAlways admState c3Tx).1 rfl,
   (unknown_sender_raises verifyNever admState (exTx "A" "B" 10 1)).2
     (Account.init "A" 1 100) rfl rfl⟩

/-- Claim C7: when validation returns success, `add_transaction` appends the
transaction to the pending pool and returns `True`; when validation returns
failure, it returns `False` with the state (pool included) exactly as
before. -/
theorem addTransaction_no_partial_admission (verify : Nat → Msg → Nat → Bool)
    (st : ChainState) (t : Transaction) :
    (validateTransaction st.accounts verify t = Except.ok true →
      addTransaction verify st t =
        (Except.ok true,
         { st with pendingTransactions := st.pendingTransactions ++ [t] }))
    ∧ (validateTransaction st.accounts verify t = Except.ok false →
      addTransaction verify st t = (Except.ok false, st)) :=
  ⟨addTransaction_ok_true verify st t, addTransaction_ok_false verify st t⟩

/-- A registered-sender transaction used to instantiate the admission
theorems. -/
def admTx : Transaction := exTx "A" "B" 10 1

/-- Instance of `addTransaction_no_partial_admission` with an accepting and
a rejecting verifier. -/
theorem addTransaction_no_partial_admission_witness :
    addTransaction verifyAlways admState admTx =
      (Except.ok true, { admState with pendingTransactions := [admTx] })
    ∧ addTransaction verifyNever admState admTx = (Except.ok false, admState) :=
  ⟨(addTransaction_no_partial_admission verifyAlways admState admTx).1 rfl,
   (addTransaction_no_partial_admission verifyNever admState admTx).2 rfl⟩

/-- Helper for claim C8: the nonces carried by N successive
`create_transaction` calls are `a.nonce + 1, …, a.nonce + N`. -/
theorem createTransactions_nonces (sign : Msg → Nat) :
    ∀ (reqs : List (String × Int × String)) (a : Account),
    (createTransactions sign a reqs).1.map (fun t => t.message.nonce)
      = List.range' (a.nonce + 1) reqs.length := by
  intro reqs
  induction reqs with
  | nil => intro a; rfl
  | cons r rest ih =>
    intro a
    simp only [createTransactions, createTransaction, List.map_cons,
      List.length_cons, List.range']
    rw [ih]

/-- Claim C8: an account's nonce starts at 0; each `create_transaction` call
stamps `nonce + 1` into the message and commits it to the account; hence N
successive calls from a fresh account carry the strictly increasing nonces
1..N, independent of admission or settlement (which never touch the
account's nonce). -/
theorem nonce_monotonicity :
    (∀ senderId pk balance, (Account.init senderId pk balance).nonce = 0)
    ∧ (∀ sign (a : Account) receiverId value md,
        (createTransaction sign a receiverId value md).1.message.nonce
            = a.nonce + 1
        ∧ (createTransaction sign a receiverId value md).2.nonce
            = a.nonce + 1)
    ∧ (∀ sign (a : Account) reqs, a.nonce = 0 →
        (createTransactions sign a reqs).1.map (fun t => t.message.nonce)
          = List.range' 1 reqs.length) := by
  refine ⟨fun _ _ _ => rfl, fun _ _ _ _ _ => ⟨rfl, rfl⟩, ?_⟩
  intro sign a reqs h
  simpa [h] using createTransactions_nonces sign reqs a

/-- Instance of `nonce_monotonicity`: three calls from a fresh account carry
nonces [1, 2, 3]. -/
theorem nonce_monotonicity_witness :
    (createTransactions (fun _ => 0) (Account.init "A" 1 100)
        [("B", 10, ""), ("B", 20, ""), ("C", 5, "")]).1.map
      (fun t => t.message.nonce) = [1, 2, 3] := by
  have h := nonce_monotonicity.2.2 (fun _ => 0) (Account.init "A" 1 100)
    [("B", 10, ""), ("B", 20, ""), ("C", 5, "")] rfl
  simpa using h

/-- Claim C9: admission has no replay or duplicate check — it depends only
on the registry (which admission never modifies), so a transaction admitted
once is admitted again unchanged, appending a second copy to the pool. -/
theorem addTransaction_no_replay_check (verify : Nat → Msg → Nat → Bool)
    (st st2 : ChainState) (t : Transaction)
    (h : addTransaction verify st t = (Except.ok true, st2)) :
    addTransaction verify st2 t =
      (Except.ok true,
       { st2 with pendingTransactions := st2.pendingTransactions ++ [t] }) := by
  obtain ⟨hv, hst2⟩ := addTransaction_ok_true_inv verify st st2 t h
  have hacc : st2.accounts = st.accounts := by rw [hst2]
  apply addTransaction_ok_true
  rw [hacc]
  exact hv

/-- Instance of `addTransaction_no_replay_check`: admitting `admTx` twice
leaves two copies in the pool. -/
theorem addTransaction_no_replay_check_witness :
    addTransaction verifyAlways
        { admState with pendingTransactions := [admTx] } admTx =
      (Except.ok true,
       { admState with pendingTransactions := [admTx, admTx] }) :=
  addTransaction_no_replay_check verifyAlways admState
    { admState with pendingTransactions := [admTx] } admTx rfl

end BasicBlockchain
